import Mathlib

/-!
Verification of the PSX model-viewer renderer (RubenTipparach/psx-web-build).

The development shallowly embeds the C sources (src/src/main.c, src/main.c,
src/src/model.c, src/trig.c, src/src/spu.c, src/src/cdda.c) as Lean
functions.  Machine integers are modelled as `Int` with explicit wrapping
(`wrap32`) at the points where the C code relies on 32-bit truncation;
arithmetic right shifts are `Int.fdiv` by a power of two, and C integer
division is `Int.tdiv`.  The GPU command-chain builder (gpu.c) and the trig
header (trig.h) are not part of the repository snapshot, so those pieces are
modelled from the specification text, as flagged in their doc comments.
-/

/-- Reduces an unbounded integer to the value a two's-complement 32-bit
register would hold, i.e. the representative in `[-2^31, 2^31)`. -/
def wrap32 (n : Int) : Int :=
  (n + 2147483648) % 4294967296 - 2147483648

/-- Modelled from the spec: `trig.h` is not in the repository snapshot.  The
spec fixes a full turn at `1 <<< ANGLE_SHIFT = 4096` angle units with
`quarter_turn = 1024`, which forces the code constant `ISIN_SHIFT = 10`
(the quarter turn in src/trig.c is `1 <<< ISIN_SHIFT`). -/
def ISIN_SHIFT : Nat := 10

/-- Embeds the sign selector of `isin` (src/trig.c line 13):
`int c = x << (30 - ISIN_SHIFT);` on a 32-bit int. -/
def isinSign (x : Int) : Int :=
  wrap32 (x * 2 ^ (30 - ISIN_SHIFT))

/-- Embeds the range reduction of `isin` (src/trig.c lines 14-17):
`x -= 1 << ISIN_SHIFT; x <<= 31 - ISIN_SHIFT; x >>= 31 - ISIN_SHIFT;`.
The shift pair truncates to the low `ISIN_SHIFT + 1` bits, sign extended. -/
def isinReduced (x : Int) : Int :=
  Int.fdiv (wrap32 ((x - 2 ^ ISIN_SHIFT) * 2 ^ (31 - ISIN_SHIFT))) (2 ^ (31 - ISIN_SHIFT))

/-- Embeds the magnitude polynomial of `isin` (src/trig.c lines 18-23):
`x *= x; x >>= 2*ISIN_SHIFT - 14; y = B - (x*C >> 14); y = A - (x*y >> 16);`
with `A = 1 << 12`, `B = 19900`, `C = 3516`.  None of these intermediate
products exceeds 32 bits, so no wrapping is needed here. -/
def isinMagnitude (x : Int) : Int :=
  let x2 := isinReduced x
  let x3 := Int.fdiv (x2 * x2) (2 ^ (2 * ISIN_SHIFT - 14))
  let y1 := 19900 - Int.fdiv (x3 * 3516) (2 ^ 14)
  4096 - Int.fdiv (x3 * y1) (2 ^ 16)

/-- Embeds `isin` (src/trig.c lines 12-25): quadratic (Bhaskara-like)
fixed-point sine; the final branch `return (c >= 0) ? y : (-y);`. -/
def isin (x : Int) : Int :=
  if 0 ≤ isinSign x then isinMagnitude x else -isinMagnitude x

/-- Modelled from the spec: `icos` lives in the missing trig.h; §4.1 states
`icos(angle) = isin(angle + quarter_turn)` with `quarter_turn = 1024`. -/
def icos (x : Int) : Int :=
  isin (x + 2 ^ ISIN_SHIFT)

theorem wrap32_add_mul (n k : Int) : wrap32 (n + 4294967296 * k) = wrap32 n := by
  unfold wrap32
  have h : n + 4294967296 * k + 2147483648 = n + 2147483648 + 4294967296 * k := by ring
  rw [h, Int.add_mul_emod_self_left]

theorem isinSign_period (x : Int) : isinSign (x + 4096) = isinSign x := by
  unfold isinSign
  have h : (x + 4096) * 2 ^ (30 - ISIN_SHIFT) =
      x * 2 ^ (30 - ISIN_SHIFT) + 4294967296 * 1 := by
    show (x + 4096) * 1048576 = x * 1048576 + 4294967296 * 1
    ring
  rw [h, wrap32_add_mul]

theorem isinReduced_period (x : Int) : isinReduced (x + 4096) = isinReduced x := by
  unfold isinReduced
  have h : (x + 4096 - 2 ^ ISIN_SHIFT) * 2 ^ (31 - ISIN_SHIFT) =
      (x - 2 ^ ISIN_SHIFT) * 2 ^ (31 - ISIN_SHIFT) + 4294967296 * 2 := by
    show (x + 4096 - 1024) * 2097152 = (x - 1024) * 2097152 + 4294967296 * 2
    ring
  rw [h, wrap32_add_mul]

theorem isin_period (x : Int) : isin (x + 4096) = isin x := by
  unfold isin isinMagnitude
  rw [isinSign_period, isinReduced_period]

/-- Embeds `getScreenX` (src/src/main.c lines 136-139): perspective-projects a
world-space x/z pair onto the screen; `screenX = (worldX * 160) / worldZ + 160`
with C truncating division, or an off-screen value when behind the camera. -/
def getScreenX (worldX worldZ : Int) : Int :=
  if worldZ ≤ 0 then 320 + 100
  else Int.tdiv (worldX * (320 / 2)) worldZ + 320 / 2

/-- Embeds the 3x3 `GTEMatrix` of 20.12 fixed-point entries (one unit is
`ONE = 1 << 12 = 4096`); row-major fields `mRC`. -/
structure GTEMatrix where
  m00 : Int
  m01 : Int
  m02 : Int
  m10 : Int
  m11 : Int
  m12 : Int
  m20 : Int
  m21 : Int
  m22 : Int
deriving DecidableEq, Repr

/-- Modelled from the spec: the GTE header (ps1/gte.h) is not in the
repository snapshot.  §4.2 describes the coprocessor MVMVA operation used by
`multiplyCurrentMatrixByVectors` as a fixed-point vector-by-matrix multiply:
each result component is the 20.12 dot product shifted right by 12
(`GTE_SF`), i.e. an arithmetic shift modelled by `Int.fdiv`. -/
def mvmva (m : GTEMatrix) (vx vy vz : Int) : Int × Int × Int :=
  (Int.fdiv (m.m00 * vx + m.m01 * vy + m.m02 * vz) 4096,
   Int.fdiv (m.m10 * vx + m.m11 * vy + m.m12 * vz) 4096,
   Int.fdiv (m.m20 * vx + m.m21 * vy + m.m22 * vz) 4096)

/-- Embeds `multiplyCurrentMatrixByVectors` (src/src/main.c lines 245-260):
runs MVMVA once per column vector V0/V1/V2 of `e` against the current matrix
`m` and collects IR1/IR2/IR3 into the output columns, i.e. the fixed-point
matrix product `m * e`. -/
def multiplyCurrentMatrixByVectors (m e : GTEMatrix) : GTEMatrix :=
  let c0 := mvmva m e.m00 e.m10 e.m20
  let c1 := mvmva m e.m01 e.m11 e.m21
  let c2 := mvmva m e.m02 e.m12 e.m22
  ⟨c0.1, c1.1, c2.1, c0.2.1, c1.2.1, c2.2.1, c0.2.2, c1.2.2, c2.2.2⟩

/-- Embeds `rotateCurrentMatrix` (src/src/main.c lines 263-308): for each
nonzero angle in the fixed order yaw, pitch, roll, build the elementary
rotation matrix with `isin`/`icos` exactly as passed to
`gte_setColumnVectors`, multiply it against the current matrix and load the
product back.  A zero angle skips its step. -/
def rotateCurrentMatrix (m : GTEMatrix) (yaw pitch roll : Int) : GTEMatrix :=
  let m1 :=
    if yaw ≠ 0 then
      multiplyCurrentMatrixByVectors m
        ⟨icos yaw, -isin yaw, 0,
         isin yaw, icos yaw, 0,
         0, 0, 4096⟩
    else m
  let m2 :=
    if pitch ≠ 0 then
      multiplyCurrentMatrixByVectors m1
        ⟨icos pitch, 0, isin pitch,
         0, 4096, 0,
         -isin pitch, 0, icos pitch⟩
    else m1
  if roll ≠ 0 then
    multiplyCurrentMatrixByVectors m2
      ⟨4096, 0, 0,
       0, icos roll, -isin roll,
       0, isin roll, icos roll⟩
  else m2

/-- Embeds the identity matrix loaded by `gte_setRotationMatrix(ONE,0,0,
0,ONE,0, 0,0,ONE)` in the main loop (src/src/main.c lines 644-648). -/
def identityGTEMatrix : GTEMatrix :=
  ⟨4096, 0, 0, 0, 4096, 0, 0, 0, 4096⟩

/-- Address of a node in a frame's command chain: the `0x00FFFFFF`
terminator sentinel, the ordering-table entry with index `i`, or the packet
allocated at word offset `o` of the frame's linear command arena. -/
inductive Link where
  | terminator : Link
  | otEntry (i : Nat) : Link
  | packet (offset : Nat) : Link
deriving DecidableEq, Repr

/-- Modelled from the spec: gpu.c/gpu.h are not in the repository snapshot.
§3 describes a `DMAChain` as one ordering table plus one linear command
arena.  `ot i` is the link currently stored in ordering-table entry `i`
(for `i < otSize`), `packetLink o` the link word of the packet allocated at
arena offset `o` (`none` while unallocated), `packetCount` the number of
packets allocated this frame and `nextPacket` the arena cursor, named after
the `chain->nextPacket` field used by src/src/main.c line 575. -/
structure DMAChain where
  otSize : Nat
  ot : Nat → Link
  packetLink : Nat → Option Link
  packetCount : Nat
  nextPacket : Nat

/-- Link held by ordering-table entry `b` right after `clearOrderingTable`:
per §3 the empty table is chained so that traversal from the farthest entry
walks toward entry 0, which holds the terminator. -/
def initLink (b : Nat) : Link :=
  if b = 0 then Link.terminator else Link.otEntry (b - 1)

/-- Modelled from the spec: `clearOrderingTable(table, size)` (§4.4) resets
every bucket to its empty, self-terminating state, and the main loop then
resets the arena cursor (`chain->nextPacket = chain->data`,
src/src/main.c lines 574-575).  The result is a fresh chain for the frame. -/
def clearOrderingTable (size : Nat) : DMAChain :=
  { otSize := size
    ot := fun i => initLink i
    packetLink := fun _ => none
    packetCount := 0
    nextPacket := 0 }

/-- Modelled from the spec: `allocatePacket(chain, bucket, wordCount)` (§4.4)
carves `wordCount` words from the linear arena at the monotonically
advancing cursor, writes the new packet's link field to whatever the bucket
currently points to, then updates the bucket head to the new packet. -/
def allocatePacket (c : DMAChain) (bucket : Nat) (words : Nat) : DMAChain :=
  { otSize := c.otSize
    ot := fun i => if i = bucket then Link.packet c.nextPacket else c.ot i
    packetLink := fun o => if o = c.nextPacket then some (c.ot bucket) else c.packetLink o
    packetCount := c.packetCount + 1
    nextPacket := c.nextPacket + words }

/-- Builds the chain for one frame: clear the table, then perform the given
allocation requests (bucket, wordCount) in order. -/
def buildChain (size : Nat) (reqs : List (Nat × Nat)) : DMAChain :=
  reqs.foldl (fun c r => allocatePacket c r.1 r.2) (clearOrderingTable size)

/-- One dereference in the chain: the link stored at a node, or `none` for
the terminator (and for addresses outside the chain). -/
def chainStep (c : DMAChain) : Link → Option Link
  | Link.terminator => none
  | Link.otEntry i => if i < c.otSize then some (c.ot i) else none
  | Link.packet o => c.packetLink o

/-- Modelled from the spec: the GPU-side traversal performed after
`sendLinkedList` (§3): follow link fields from a start node until the
terminator sentinel.  `fuel` bounds the number of nodes visited; the result
is the list of visited nodes (`none` if the walk does not reach the
terminator within `fuel` nodes, e.g. on a cycle). -/
def walkChain (c : DMAChain) : Nat → Link → Option (List Link)
  | _, Link.terminator => some []
  | 0, _ => none
  | fuel + 1, l =>
    match chainStep c l with
    | none => none
    | some next => (walkChain c fuel next).map (fun vs => l :: vs)

/-- Recognizes packet nodes among visited chain nodes. -/
def isPacketNode : Link → Bool
  | Link.packet _ => true
  | _ => false

/-- First node of a bucket segment: the most recently allocated packet, or
`final` (the link the empty bucket held) when no packet was allocated. -/
def segHead : List Nat → Link → Link
  | [], final => final
  | o :: _, _ => Link.packet o

/-- The packets at the listed offsets are chained in order: each packet's
stored link points to the next offset, the last one to `final`. -/
def chainOK (pl : Nat → Option Link) (final : Link) : List Nat → Prop
  | [] => True
  | o :: rest => pl o = some (segHead rest final) ∧ chainOK pl final rest

/-- Per-frame invariant relating a `DMAChain` to the ghost per-bucket stks
(`stks b` lists the arena offsets of bucket `b`'s packets, most recent
first). -/
structure ChainInv (c : DMAChain) (stks : Nat → List Nat) : Prop where
  head_ok : ∀ b, b < c.otSize → c.ot b = segHead (stks b) (initLink b)
  chain_ok : ∀ b, b < c.otSize → chainOK c.packetLink (initLink b) (stks b)
  fresh : ∀ b, b < c.otSize → ∀ o ∈ stks b, o < c.nextPacket
  stack_nodup : ∀ b, b < c.otSize → (stks b).Nodup
  stack_disj : ∀ b1 b2, b1 < c.otSize → b2 < c.otSize → b1 ≠ b2 →
    ∀ o, o ∈ stks b1 → o ∉ stks b2
  count_ok : Finset.sum (Finset.range c.otSize) (fun j => (stks j).length) = c.packetCount

theorem chainOK_congr (pl pl' : Nat → Option Link) (final : Link) :
    ∀ s : List Nat, (∀ o ∈ s, pl' o = pl o) → chainOK pl final s → chainOK pl' final s := by
  intro s
  induction s with
  | nil => intro _ _; trivial
  | cons o rest ih =>
    intro hagree h
    obtain ⟨h1, h2⟩ := h
    refine ⟨?_, ih (fun o' ho' => hagree o' (List.mem_cons_of_mem _ ho')) h2⟩
    rw [hagree o (List.mem_cons_self _ _)]
    exact h1

theorem chainInv_clear (size : Nat) : ChainInv (clearOrderingTable size) (fun _ => []) := by
  refine ⟨?_, ?_, ?_, ?_, ?_, ?_⟩
  · intro b _; rfl
  · intro b _; trivial
  · intro b _ o ho; simp at ho
  · intro b _; exact List.nodup_nil
  · intro b1 b2 _ _ _ o ho; simp at ho
  · simp [clearOrderingTable]

theorem chainInv_alloc (c : DMAChain) (stks : Nat → List Nat) (b w : Nat)
    (inv : ChainInv c stks) (hb : b < c.otSize) (hw : 0 < w) :
    ChainInv (allocatePacket c b w)
      (fun j => if j = b then c.nextPacket :: stks b else stks j) := by
  have hagree : ∀ s : List Nat, (∀ o ∈ s, o < c.nextPacket) →
      ∀ final, chainOK c.packetLink final s →
      chainOK (fun o => if o = c.nextPacket then some (c.ot b) else c.packetLink o) final s := by
    intro s hs final
    refine chainOK_congr _ _ _ s ?_
    intro o ho
    have h1 : o < c.nextPacket := hs o ho
    simp only [if_neg (by omega : ¬ o = c.nextPacket)]
  refine ⟨?_, ?_, ?_, ?_, ?_, ?_⟩
  · intro b' hb'
    simp only [allocatePacket] at hb' ⊢
    by_cases h : b' = b
    · subst h; simp [segHead]
    · simp [if_neg h, inv.head_ok b' hb']
  · intro b' hb'
    simp only [allocatePacket] at hb' ⊢
    by_cases h : b' = b
    · subst h
      simp only [if_pos rfl]
      refine ⟨?_, hagree _ (inv.fresh b' hb') _ (inv.chain_ok b' hb')⟩
      simp [inv.head_ok b' hb']
    · simp only [if_neg h]
      exact hagree _ (inv.fresh b' hb') _ (inv.chain_ok b' hb')
  · intro b' hb' o ho
    simp only [allocatePacket] at hb' ⊢
    by_cases h : b' = b
    · subst h
      simp only [if_pos rfl] at ho
      rcases List.mem_cons.mp ho with h' | h'
      · omega
      · have := inv.fresh b' hb' o h'; omega
    · simp only [if_neg h] at ho
      have := inv.fresh b' hb' o ho; omega
  · intro b' hb'
    simp only [allocatePacket] at hb'
    by_cases h : b' = b
    · subst h
      simp only [if_pos rfl]
      refine List.nodup_cons.mpr ⟨?_, inv.stack_nodup b' hb'⟩
      intro hmem
      have := inv.fresh b' hb' _ hmem; omega
    · simp only [if_neg h]
      exact inv.stack_nodup b' hb'
  · intro b1 b2 hb1 hb2 hne o ho1 ho2
    simp only [allocatePacket] at hb1 hb2
    by_cases h1 : b1 = b
    · subst h1
      simp only [if_pos rfl] at ho1
      simp only [if_neg (fun hx : b2 = b1 => hne hx.symm)] at ho2
      rcases List.mem_cons.mp ho1 with h' | h'
      · have := inv.fresh b2 hb2 o ho2; omega
      · exact inv.stack_disj b1 b2 hb1 hb2 hne o h' ho2
    · simp only [if_neg h1] at ho1
      by_cases h2 : b2 = b
      · subst h2
        simp only [if_pos rfl] at ho2
        rcases List.mem_cons.mp ho2 with h' | h'
        · subst h'
          exact absurd (inv.fresh b1 hb1 _ ho1) (by omega)
        · exact inv.stack_disj b1 b2 hb1 hb2 hne o ho1 h'
      · simp only [if_neg h2] at ho2
        exact inv.stack_disj b1 b2 hb1 hb2 hne o ho1 ho2
  · simp only [allocatePacket]
    have hpt : ∀ j, ((if j = b then c.nextPacket :: stks b else stks j) : List Nat).length
        = (stks j).length + (if j = b then 1 else 0) := by
      intro j
      by_cases h : j = b <;> simp [h]
    rw [Finset.sum_congr rfl (fun j _ => hpt j), Finset.sum_add_distrib,
      Finset.sum_ite_eq' (Finset.range c.otSize) b (fun _ => 1),
      if_pos (Finset.mem_range.mpr hb), inv.count_ok]

theorem walkChain_terminator (c : DMAChain) (fuel : Nat) :
    walkChain c fuel Link.terminator = some [] := by
  cases fuel <;> rfl

theorem walkChain_packet (c : DMAChain) (fuel : Nat) (o : Nat) :
    walkChain c (fuel + 1) (Link.packet o) =
      match chainStep c (Link.packet o) with
      | none => none
      | some next => (walkChain c fuel next).map (fun vs => Link.packet o :: vs) := rfl

theorem walkChain_otEntry (c : DMAChain) (fuel : Nat) (i : Nat) :
    walkChain c (fuel + 1) (Link.otEntry i) =
      match chainStep c (Link.otEntry i) with
      | none => none
      | some next => (walkChain c fuel next).map (fun vs => Link.otEntry i :: vs) := rfl

theorem walkChain_seg (c : DMAChain) (s : List Nat) (final : Link) (fuel : Nat) (vs : List Link)
    (hchain : chainOK c.packetLink final s) (hw : walkChain c fuel final = some vs) :
    walkChain c (s.length + fuel) (segHead s final) = some (s.map Link.packet ++ vs) := by
  induction s with
  | nil => simpa [segHead] using hw
  | cons o rest ih =>
    obtain ⟨h1, h2⟩ := hchain
    have ihh := ih h2
    have hlen : (o :: rest).length + fuel = (rest.length + fuel) + 1 := by
      simp [List.length_cons]; omega
    rw [hlen]
    show walkChain c ((rest.length + fuel) + 1) (Link.packet o) = _
    rw [walkChain_packet]
    simp only [chainStep, h1, ihh]
    simp [segHead]

/-- The node sequence a correct walk visits, from ordering-table entry `i`
down to entry 0: each bucket contributes its own table entry followed by its
packets, most recently allocated first. -/
def expectedWalk (stks : Nat → List Nat) : Nat → List Link
  | 0 => Link.otEntry 0 :: (stks 0).map Link.packet
  | i + 1 => Link.otEntry (i + 1) :: ((stks (i + 1)).map Link.packet ++ expectedWalk stks i)

theorem walkChain_expected (c : DMAChain) (stks : Nat → List Nat) (inv : ChainInv c stks) :
    ∀ i, i < c.otSize →
    walkChain c (expectedWalk stks i).length (Link.otEntry i) = some (expectedWalk stks i) := by
  intro i
  induction i with
  | zero =>
    intro h0
    have hinit : initLink 0 = Link.terminator := rfl
    have hseg := walkChain_seg c (stks 0) (initLink 0) 0 [] (inv.chain_ok 0 h0)
      (by rw [hinit]; exact walkChain_terminator c 0)
    have hlen : (expectedWalk stks 0).length = (stks 0).length + 1 := by
      simp [expectedWalk]
    rw [hlen, walkChain_otEntry]
    simp only [chainStep, if_pos h0, inv.head_ok 0 h0]
    rw [show (stks 0).length = (stks 0).length + 0 from rfl, hseg]
    simp [expectedWalk]
  | succ i ih =>
    intro hsi
    have hi : i < c.otSize := by omega
    have hinit : initLink (i + 1) = Link.otEntry i := by
      simp [initLink]
    have hchain := inv.chain_ok (i + 1) hsi
    rw [hinit] at hchain
    have hseg := walkChain_seg c (stks (i + 1)) (Link.otEntry i)
      (expectedWalk stks i).length (expectedWalk stks i) hchain (ih hi)
    have hlen : (expectedWalk stks (i + 1)).length =
        ((stks (i + 1)).length + (expectedWalk stks i).length) + 1 := by
      simp [expectedWalk]
    rw [hlen, walkChain_otEntry]
    simp only [chainStep, if_pos hsi, inv.head_ok (i + 1) hsi, hinit]
    rw [hseg]
    simp [expectedWalk]

theorem expectedWalk_length (stks : Nat → List Nat) :
    ∀ i, (expectedWalk stks i).length =
      (i + 1) + Finset.sum (Finset.range (i + 1)) (fun j => (stks j).length) := by
  intro i
  induction i with
  | zero => simp [expectedWalk]; omega
  | succ i ih =>
    simp only [expectedWalk, List.length_cons, List.length_append, List.length_map, ih]
    rw [Finset.sum_range_succ (fun j => (stks j).length) (i + 1)]
    omega

theorem expectedWalk_filter (stks : Nat → List Nat) :
    ∀ i, ((expectedWalk stks i).filter isPacketNode).length =
      Finset.sum (Finset.range (i + 1)) (fun j => (stks j).length) := by
  intro i
  have hmap : ∀ s : List Nat, (s.map Link.packet).filter isPacketNode = s.map Link.packet := by
    intro s
    refine List.filter_eq_self.mpr ?_
    intro a ha
    obtain ⟨o, _, rfl⟩ := List.mem_map.mp ha
    rfl
  induction i with
  | zero =>
    have hstep : (expectedWalk stks 0).filter isPacketNode = (stks 0).map Link.packet := by
      rw [show expectedWalk stks 0 = Link.otEntry 0 :: (stks 0).map Link.packet from rfl]
      rw [List.filter_cons_of_neg (by simp [isPacketNode]), hmap]
    rw [hstep, List.length_map, Finset.sum_range_one]
  | succ i ih =>
    have hstep : (expectedWalk stks (i + 1)).filter isPacketNode
        = (stks (i + 1)).map Link.packet ++ (expectedWalk stks i).filter isPacketNode := by
      rw [show expectedWalk stks (i + 1)
          = Link.otEntry (i + 1) :: ((stks (i + 1)).map Link.packet ++ expectedWalk stks i)
          from rfl]
      rw [List.filter_cons_of_neg (by simp [isPacketNode]), List.filter_append, hmap]
    rw [hstep, List.length_append, List.length_map, ih,
      Finset.sum_range_succ (fun j => (stks j).length) (i + 1)]
    omega

theorem expectedWalk_mem (stks : Nat → List Nat) :
    ∀ i l, l ∈ expectedWalk stks i →
      (∃ j, j ≤ i ∧ l = Link.otEntry j) ∨ (∃ j o, j ≤ i ∧ o ∈ stks j ∧ l = Link.packet o) := by
  intro i
  induction i with
  | zero =>
    intro l hl
    rcases List.mem_cons.mp hl with h | h
    · exact Or.inl ⟨0, Nat.le_refl 0, h⟩
    · obtain ⟨o, ho, rfl⟩ := List.mem_map.mp h
      exact Or.inr ⟨0, o, Nat.le_refl 0, ho, rfl⟩
  | succ i ih =>
    intro l hl
    rcases List.mem_cons.mp hl with h | h
    · exact Or.inl ⟨i + 1, Nat.le_refl _, h⟩
    · rcases List.mem_append.mp h with h' | h'
      · obtain ⟨o, ho, rfl⟩ := List.mem_map.mp h'
        exact Or.inr ⟨i + 1, o, Nat.le_refl _, ho, rfl⟩
      · rcases ih l h' with ⟨j, hj, rfl⟩ | ⟨j, o, hj, ho, rfl⟩
        · exact Or.inl ⟨j, by omega, rfl⟩
        · exact Or.inr ⟨j, o, by omega, ho, rfl⟩

theorem expectedWalk_nodup (c : DMAChain) (stks : Nat → List Nat) (inv : ChainInv c stks) :
    ∀ i, i < c.otSize → (expectedWalk stks i).Nodup := by
  have hpacketinj : Function.Injective Link.packet := by
    intro a b h
    cases h
    rfl
  intro i
  induction i with
  | zero =>
    intro h0
    refine List.nodup_cons.mpr ⟨?_, List.Nodup.map hpacketinj (inv.stack_nodup 0 h0)⟩
    intro hmem
    obtain ⟨o, _, h⟩ := List.mem_map.mp hmem
    exact Link.noConfusion h
  | succ i ih =>
    intro hsi
    have hi : i < c.otSize := by omega
    refine List.nodup_cons.mpr ⟨?_, ?_⟩
    · intro hmem
      rcases List.mem_append.mp hmem with h | h
      · obtain ⟨o, _, h⟩ := List.mem_map.mp h
        exact Link.noConfusion h
      · rcases expectedWalk_mem stks i _ h with ⟨j, hj, heq⟩ | ⟨j, o, _, _, heq⟩
        · have : i + 1 = j := Link.otEntry.inj heq
          omega
        · exact Link.noConfusion heq
    · refine List.Nodup.append (List.Nodup.map hpacketinj (inv.stack_nodup (i + 1) hsi))
        (ih hi) ?_
      rw [List.disjoint_left]
      intro a ha ha'
      obtain ⟨o, ho, rfl⟩ := List.mem_map.mp ha
      rcases expectedWalk_mem stks i _ ha' with ⟨j, _, heq⟩ | ⟨j, o', hj, ho', heq⟩
      · exact Link.noConfusion heq
      · have : o = o' := Link.packet.inj heq
        subst this
        exact inv.stack_disj (i + 1) j hsi (by omega) (by omega) o ho ho'

theorem chainInv_build :
    ∀ (reqs : List (Nat × Nat)) (c : DMAChain) (stks : Nat → List Nat),
    ChainInv c stks → (∀ r ∈ reqs, r.1 < c.otSize ∧ 0 < r.2) →
    ∃ stks' : Nat → List Nat,
      ChainInv (reqs.foldl (fun c r => allocatePacket c r.1 r.2) c) stks' ∧
      (reqs.foldl (fun c r => allocatePacket c r.1 r.2) c).otSize = c.otSize ∧
      (reqs.foldl (fun c r => allocatePacket c r.1 r.2) c).packetCount
        = c.packetCount + reqs.length := by
  intro reqs
  induction reqs with
  | nil => exact fun c stks inv _ => ⟨stks, inv, rfl, rfl⟩
  | cons r rest ih =>
    intro c stks inv hreq
    have hr := hreq r (List.mem_cons_self _ _)
    have inv' := chainInv_alloc c stks r.1 r.2 inv hr.1 hr.2
    obtain ⟨stks', hinv', hsz, hcnt⟩ := ih (allocatePacket c r.1 r.2) _ inv'
      (fun x hx => hreq x (List.mem_cons_of_mem _ hx))
    refine ⟨stks', hinv', hsz, ?_⟩
    simp only [List.foldl_cons]
    rw [hcnt]
    show c.packetCount + 1 + rest.length = c.packetCount + (rest.length + 1)
    omega

/-- Core ordering-table result: after `clearOrderingTable` and any sequence
of `allocatePacket` calls with in-range buckets and positive word counts,
the walk that `sendLinkedList` performs from the farthest bucket
`ORDERING_TABLE_SIZE - 1` (src/src/main.c line 964) reaches the terminator
sentinel, visits exactly one packet node per allocation, and repeats no
node. -/
theorem otWalk_visits_all_packets (size : Nat) (faceReqs auxReqs : List (Nat × Nat))
    (hsize : 1 ≤ size)
    (hreq : ∀ r ∈ faceReqs ++ auxReqs, r.1 < size ∧ 0 < r.2) :
    ∃ visited : List Link,
      walkChain (buildChain size (faceReqs ++ auxReqs))
        (size + (faceReqs.length + auxReqs.length)) (Link.otEntry (size - 1))
        = some visited ∧
      (visited.filter isPacketNode).length = faceReqs.length + auxReqs.length ∧
      visited.Nodup := by
  obtain ⟨stks', hinv, hsz, hcnt⟩ := chainInv_build (faceReqs ++ auxReqs)
    (clearOrderingTable size) (fun _ => []) (chainInv_clear size)
    (fun r hr => hreq r hr)
  have hinv : ChainInv (buildChain size (faceReqs ++ auxReqs)) stks' := hinv
  have hCsize : (buildChain size (faceReqs ++ auxReqs)).otSize = size := hsz
  have hCcount : (buildChain size (faceReqs ++ auxReqs)).packetCount
      = faceReqs.length + auxReqs.length := by
    show (List.foldl (fun c r => allocatePacket c r.1 r.2) (clearOrderingTable size)
      (faceReqs ++ auxReqs)).packetCount = faceReqs.length + auxReqs.length
    rw [hcnt]
    simp [clearOrderingTable]
  have hlt : size - 1 < (buildChain size (faceReqs ++ auxReqs)).otSize := by
    omega
  have hsum : Finset.sum (Finset.range size) (fun j => (stks' j).length)
      = faceReqs.length + auxReqs.length := by
    have h2 := hinv.count_ok
    rw [hCsize] at h2
    rw [h2, hCcount]
  refine ⟨expectedWalk stks' (size - 1), ?_, ?_, ?_⟩
  · have hw := walkChain_expected _ stks' hinv (size - 1) hlt
    have hlen : (expectedWalk stks' (size - 1)).length
        = size + (faceReqs.length + auxReqs.length) := by
      rw [expectedWalk_length, show size - 1 + 1 = size from by omega, hsum]
    rw [hlen] at hw
    exact hw
  · rw [expectedWalk_filter, show size - 1 + 1 = size from by omega, hsum]
  · exact expectedWalk_nodup _ stks' hinv (size - 1) hlt

/-- GTE readbacks for one face of the model: `nclip` is the signed clip
value read from `GTE_MAC0` after `GTE_CMD_NCLIP`, `zIndex` the average-Z
bucket read from `GTE_OTZ` after `GTE_CMD_AVSZ3` (src/src/main.c lines
669-675). -/
structure FaceResult where
  nclip : Int
  zIndex : Int
deriving DecidableEq, Repr

/-- Embeds the per-face control flow of the draw loop (src/src/main.c lines
654-694, identically src/main.c lines 192-232): a backfacing face
(`nclip <= 0`) is skipped, an out-of-range depth bucket
(`zIndex < 0 || zIndex >= ORDERING_TABLE_SIZE`) is skipped, and otherwise
exactly one 7-word textured-triangle packet is allocated in bucket
`zIndex`. -/
def faceAllocation (otSize : Nat) (r : FaceResult) : Option (Nat × Nat) :=
  if r.nclip ≤ 0 then none
  else if r.zIndex < 0 ∨ (otSize : Int) ≤ r.zIndex then none
  else some (r.zIndex.toNat, 7)

/-- Allocation requests issued during one frame of src/main.c (lines
192-248): the per-face packets in array order, then the fixed auxiliary
packets — the 3-word VRAM-fill background and the 4-word drawing-area
packet, both in the farthest bucket. -/
def frameRequests (otSize : Nat) (results : List FaceResult) : List (Nat × Nat) :=
  results.filterMap (faceAllocation otSize) ++ [(otSize - 1, 3), (otSize - 1, 4)]

/-- The chain built by one frame of src/main.c. -/
def buildFrame (otSize : Nat) (results : List FaceResult) : DMAChain :=
  buildChain otSize (frameRequests otSize results)

/-- Number of faces that pass both the backface cull and the depth-bucket
range check. -/
def passingFaces (otSize : Nat) (results : List FaceResult) : Nat :=
  (results.filter (fun r =>
    decide (0 < r.nclip) && decide (0 ≤ r.zIndex) && decide (r.zIndex < (otSize : Int)))).length

theorem foldl_alloc_nextPacket :
    ∀ (reqs : List (Nat × Nat)) (c : DMAChain),
    (reqs.foldl (fun c r => allocatePacket c r.1 r.2) c).nextPacket
      = c.nextPacket + (reqs.map (fun r => r.2)).sum := by
  intro reqs
  induction reqs with
  | nil => intro c; simp
  | cons r rest ih =>
    intro c
    simp only [List.foldl_cons, List.map_cons, List.sum_cons]
    rw [ih]
    show c.nextPacket + r.2 + (rest.map (fun r => r.2)).sum = _
    omega

theorem faceAllocation_eq_some (otSize : Nat) (r : FaceResult) :
    faceAllocation otSize r = some (r.zIndex.toNat, 7) ↔
      0 < r.nclip ∧ 0 ≤ r.zIndex ∧ r.zIndex < (otSize : Int) := by
  unfold faceAllocation
  by_cases h1 : r.nclip ≤ 0
  · simp [if_pos h1]
    omega
  · by_cases h2 : r.zIndex < 0 ∨ (otSize : Int) ≤ r.zIndex
    · simp [if_neg h1, if_pos h2]
      omega
    · simp [if_neg h1, if_neg h2]
      omega

theorem faceAllocation_eq_none (otSize : Nat) (r : FaceResult) :
    faceAllocation otSize r = none ↔
      ¬(0 < r.nclip ∧ 0 ≤ r.zIndex ∧ r.zIndex < (otSize : Int)) := by
  unfold faceAllocation
  by_cases h1 : r.nclip ≤ 0
  · simp [if_pos h1]
    omega
  · by_cases h2 : r.zIndex < 0 ∨ (otSize : Int) ≤ r.zIndex
    · simp [if_neg h1, if_pos h2]
      omega
    · simp [if_neg h1, if_neg h2]
      omega

theorem filterMap_faceAllocation_words (otSize : Nat) :
    ∀ results : List FaceResult,
    ((results.filterMap (faceAllocation otSize)).map (fun r => r.2)).sum
      = 7 * passingFaces otSize results := by
  intro results
  induction results with
  | nil => rfl
  | cons r rest ih =>
    by_cases h : 0 < r.nclip ∧ 0 ≤ r.zIndex ∧ r.zIndex < (otSize : Int)
    · have hsome := (faceAllocation_eq_some otSize r).mpr h
      have hpass : (decide (0 < r.nclip) && decide (0 ≤ r.zIndex)
          && decide (r.zIndex < (otSize : Int))) = true := by
        simp only [Bool.and_eq_true, decide_eq_true_eq]
        exact ⟨⟨h.1, h.2.1⟩, h.2.2⟩
      have hp2 : passingFaces otSize (r :: rest) = passingFaces otSize rest + 1 := by
        simp [passingFaces, List.filter_cons, hpass]
      have hfm : (r :: rest).filterMap (faceAllocation otSize)
          = (r.zIndex.toNat, 7) :: rest.filterMap (faceAllocation otSize) := by
        simp only [List.filterMap_cons, hsome]
      rw [hfm, List.map_cons, List.sum_cons, ih, hp2]
      ring
    · have hnone := (faceAllocation_eq_none otSize r).mpr h
      have hpass : (decide (0 < r.nclip) && decide (0 ≤ r.zIndex)
          && decide (r.zIndex < (otSize : Int))) = false := by
        rw [Bool.eq_false_iff]
        intro hx
        simp only [Bool.and_eq_true, decide_eq_true_eq] at hx
        exact h ⟨hx.1.1, hx.1.2, hx.2⟩
      have hp2 : passingFaces otSize (r :: rest) = passingFaces otSize rest := by
        simp [passingFaces, List.filter_cons, hpass]
      have hfm : (r :: rest).filterMap (faceAllocation otSize)
          = rest.filterMap (faceAllocation otSize) := by
        simp only [List.filterMap_cons, hnone]
      rw [hfm, ih, hp2]

/-- Embeds the clamp of `drawBgTriangle` (src/src/main.c lines 209-218):
`minIdx = ORDERING_TABLE_SIZE / 2; maxIdx = ORDERING_TABLE_SIZE - 3;
if (zIdx < minIdx) zIdx = minIdx; if (zIdx > maxIdx) zIdx = maxIdx;`. -/
def drawBgTriangleBucket (otSize : Nat) (zIdx : Int) : Int :=
  let minIdx : Int := (otSize / 2 : Nat)
  let maxIdx : Int := (otSize : Int) - 3
  let z1 := if zIdx < minIdx then minIdx else zIdx
  if z1 > maxIdx then maxIdx else z1

/-- Embeds `drawBgTriangle` (src/src/main.c lines 209-224): clamps the depth
index to the background band and allocates one 4-word flat-shaded triangle
packet in that bucket (`allocatePacket(chain, zIdx, 4)`). -/
def drawBgTriangle (otSize : Nat) (c : DMAChain) (zIdx : Int) : DMAChain :=
  allocatePacket c (drawBgTriangleBucket otSize zIdx).toNat 4

/-- Events of one main-loop iteration, in program order (src/src/main.c
lines 563-965 and src/main.c lines 163-254): pick the chain indexed by the
parity flag, clear/rebuild it, wait for the GPU command FIFO, wait for
vertical sync, then submit the chain with `sendLinkedList`. -/
inductive FrameEvent where
  | select (buffer : Nat) : FrameEvent
  | beginWrite (buffer : Nat) : FrameEvent
  | waitGP0 : FrameEvent
  | waitVSync : FrameEvent
  | submit (buffer : Nat) : FrameEvent
deriving DecidableEq, Repr

/-- Events of one iteration of the main loop given the value of
`usingSecondFrame` at its start: `chain = &dmaChains[usingSecondFrame]` is
selected, written, and submitted within the same iteration, after
`waitForGP0Ready()` and `waitForVSync()`. -/
def loopIterEvents (usingSecondFrame : Bool) : List FrameEvent :=
  let buf : Nat := if usingSecondFrame then 1 else 0
  [FrameEvent.select buf, FrameEvent.beginWrite buf,
   FrameEvent.waitGP0, FrameEvent.waitVSync, FrameEvent.submit buf]

/-- Value of `usingSecondFrame` at the start of iteration `k`: it starts
`false` and is negated once per iteration (src/src/main.c line 568). -/
def flagAfter : Nat → Bool
  | 0 => false
  | k + 1 => !flagAfter k

/-- Events of the `k`-th frame of the main loop. -/
def frameEvents (k : Nat) : List FrameEvent :=
  loopIterEvents (flagAfter k)

/-- The DMA chain buffer index built (and submitted) during frame `k`. -/
def bufferOf (k : Nat) : Nat :=
  if flagAfter k then 1 else 0

/-- Event trace of `m` iterations of the main loop starting with parity
flag `flag`. -/
def traceAux (flag : Bool) : Nat → List FrameEvent
  | 0 => []
  | m + 1 => loopIterEvents flag ++ traceAux (!flag) m

/-- Event trace of the first `m` frames of the program's main loop. -/
def mainTrace (m : Nat) : List FrameEvent :=
  traceAux false m

/-- Parity flag at the start of iteration `k`, had the loop started with
flag `flag`. -/
def flagFrom (flag : Bool) : Nat → Bool
  | 0 => flag
  | k + 1 => !flagFrom flag k

theorem flagFrom_false (k : Nat) : flagFrom false k = flagAfter k := by
  induction k with
  | zero => rfl
  | succ k ih => simp [flagFrom, flagAfter, ih]

theorem flagFrom_not (flag : Bool) (k : Nat) : flagFrom (!flag) k = !flagFrom flag k := by
  induction k with
  | zero => rfl
  | succ k ih => simp [flagFrom, ih]

theorem traceAux_get (j : Nat) (hj : j < 5) :
    ∀ (k : Nat) (flag : Bool) (m : Nat), k < m →
    (traceAux flag m).get? (5 * k + j) = (loopIterEvents (flagFrom flag k)).get? j := by
  intro k
  induction k with
  | zero =>
    intro flag m hm
    match m, hm with
    | m + 1, _ =>
      show (loopIterEvents flag ++ traceAux (!flag) m).get? (5 * 0 + j) = _
      rw [show 5 * 0 + j = j from by omega]
      exact List.get?_append (by simp [loopIterEvents]; omega)
  | succ k ih =>
    intro flag m hm
    match m, hm with
    | m + 1, hm =>
      show (loopIterEvents flag ++ traceAux (!flag) m).get? (5 * (k + 1) + j) = _
      rw [List.get?_append_right (by simp [loopIterEvents]; omega)]
      rw [show 5 * (k + 1) + j - (loopIterEvents flag).length = 5 * k + j from by
        simp [loopIterEvents]; omega]
      rw [ih (!flag) m (by omega), flagFrom_not]
      rfl

theorem mainTrace_get (k j m : Nat) (hj : j < 5) (hm : k < m) :
    (mainTrace m).get? (5 * k + j) = (frameEvents k).get? j := by
  show (traceAux false m).get? (5 * k + j) = _
  rw [traceAux_get j hj k false m hm, flagFrom_false]
  rfl

theorem flagAfter_mod (k : Nat) : flagAfter k = decide (k % 2 = 1) := by
  induction k with
  | zero => rfl
  | succ k ih =>
    rw [show flagAfter (k + 1) = !flagAfter k from rfl, ih]
    rcases Nat.mod_two_eq_zero_or_one k with h | h <;> simp [h, Nat.add_mod]

theorem bufferOf_mod (k : Nat) : bufferOf k = k % 2 := by
  unfold bufferOf
  rw [flagAfter_mod]
  rcases Nat.mod_two_eq_zero_or_one k with h | h <;> simp [h]

/-- Embeds the parsed `Model` structure (src/src/model.h lines 24-33): the
four 16-bit header counts plus the byte offsets into the data buffer at
which the vertex, UV and face tables begin (the C code stores
`data + offset` pointers; the embedding keeps the offsets). -/
structure PSXModel where
  numVertices : Nat
  numUVs : Nat
  numFaces : Nat
  reservedWord : Nat
  verticesOffset : Nat
  uvsOffset : Nat
  facesOffset : Nat
deriving DecidableEq, Repr

/-- Little-endian 16-bit word `i` of a byte buffer, as read through the
`(const uint16_t *)data` header cast of src/src/model.c line 37. -/
def read16 (data : List Nat) (i : Nat) : Nat :=
  data.getD (2 * i) 0 + 256 * data.getD (2 * i + 1) 0

/-- Embeds the `(x + 3) & ~3` round-up-to-4 alignment of src/src/model.c
lines 49 and 55. -/
def align4 (n : Nat) : Nat :=
  (n + 3) - (n + 3) % 4

/-- Embeds `loadModel` (src/src/model.c lines 31-63).  The `model`/`data`
null checks are outside the value-level embedding (both arguments are
values here); the `size < 8` check is kept.  Table offsets follow the
source exactly: vertices at 8, each vertex 6 bytes (`sizeof(GTEVector16)`,
per the format comment at src/src/model.c lines 19-20), UVs 2 bytes each,
with 4-byte alignment before the UV and face tables.  No check relates the
declared table sizes to `size`. -/
def loadModel (data : List Nat) (size : Nat) : Option PSXModel :=
  if size < 8 then none
  else
    let numVertices := read16 data 0
    let numUVs := read16 data 1
    let numFaces := read16 data 2
    let reservedWord := read16 data 3
    let vertexOffset := 8
    let vertexSize := numVertices * 6
    let uvOffset := align4 (vertexOffset + vertexSize)
    let uvSize := numUVs * 2
    let faceOffset := align4 (uvOffset + uvSize)
    some ⟨numVertices, numUVs, numFaces, reservedWord, vertexOffset, uvOffset, faceOffset⟩

/-- Embeds the spin loop of `waitCDReady` (src/src/cdda.c lines 64-67):
`while (CDROM_HSTS & CDROM_HSTS_BUSYSTS);` — no timeout counter.
`busySts n` is the n-th read of the busy flag; `fuel` is the number of loop
iterations we are willing to unfold, and `none` means the loop is still
spinning after that many reads.  `some i` reports the read index at which
the loop exited. -/
def waitCDReadyLoop (busySts : Nat → Bool) : Nat → Nat → Option Nat
  | _, 0 => none
  | i, fuel + 1 => if busySts i then waitCDReadyLoop busySts (i + 1) fuel else some i

/-- Embeds the first spin loop of `exchangeByte` (src/src/main.c lines
343-344): `while (!(SIO_STAT(0) & SIO_STAT_TX_NOT_FULL));` — no timeout
counter; same fuel convention as `waitCDReadyLoop`.  (The RX wait at lines
346-347 has the same shape.) -/
def exchangeByteTxWait (txNotFull : Nat → Bool) : Nat → Nat → Option Nat
  | _, 0 => none
  | i, fuel + 1 => if txNotFull i then some i else exchangeByteTxWait txNotFull (i + 1) fuel

/-- Embeds the spin loop of `SPUWaitIdle` (src/src/spu.c lines 66-71):
`int timeout = 10000; while ((SPU_STATUS_REG & 0x07ff) != 0 && --timeout > 0)`.
`busy i` is the i-th status read; `remaining` counts how many more times the
`--timeout > 0` guard will allow re-entry (9999 on entry).  The result is
the total number of status reads performed before the function returns;
when the counter runs out the function proceeds anyway. -/
def SPUWaitIdleReads (busy : Nat → Bool) : Nat → Nat → Nat
  | i, 0 => i + 1
  | i, remaining + 1 => if busy i then SPUWaitIdleReads busy (i + 1) remaining else i + 1

theorem SPUWaitIdleReads_le (busy : Nat → Bool) :
    ∀ (remaining i : Nat), SPUWaitIdleReads busy i remaining ≤ i + remaining + 1 := by
  intro remaining
  induction remaining with
  | zero => intro i; simp [SPUWaitIdleReads]
  | succ r ih =>
    intro i
    show (if busy i then SPUWaitIdleReads busy (i + 1) r else i + 1) ≤ i + (r + 1) + 1
    by_cases h : busy i
    · rw [if_pos h]
      have := ih (i + 1)
      omega
    · rw [if_neg h]
      omega

theorem waitCDReadyLoop_busy_forever :
    ∀ (fuel i : Nat), waitCDReadyLoop (fun _ => true) i fuel = none := by
  intro fuel
  induction fuel with
  | zero => intro i; rfl
  | succ f ih =>
    intro i
    show (if true then waitCDReadyLoop (fun _ => true) (i + 1) f else some i) = none
    rw [if_pos rfl]
    exact ih (i + 1)

theorem exchangeByteTxWait_blocked_forever :
    ∀ (fuel i : Nat), exchangeByteTxWait (fun _ => false) i fuel = none := by
  intro fuel
  induction fuel with
  | zero => intro i; rfl
  | succ f ih =>
    intro i
    show (if false then some i else exchangeByteTxWait (fun _ => false) (i + 1) f) = none
    rw [if_neg (by simp)]
    exact ih (i + 1)

/-- Embeds the `ControllerState` structure (src/src/main.c lines 369-376). -/
structure ControllerState where
  buttons : Nat
  leftX : Nat
  leftY : Nat
  rightX : Nat
  rightY : Nat
  isAnalog : Bool
deriving DecidableEq, Repr

/-- The defaults written at the top of `pollController` (src/src/main.c
lines 379-385): no buttons, all four stick axes centered at 0x80, digital. -/
def neutralControllerState : ControllerState :=
  ⟨0, 0x80, 0x80, 0x80, 0x80, false⟩

/-- Responses of whatever sits on the controller port during one poll:
whether the device acknowledged the address byte and the command byte
(`waitForAcknowledge(500)` at src/src/main.c lines 401 and 417), the acks
after each data byte, and the data bytes it returns. -/
structure PadHardware where
  addrAck : Bool
  cmdAck : Bool
  dataAcks : Nat → Bool
  bytes : Nat → Nat

/-- Embeds the read loop of `pollController` (src/src/main.c lines
426-430): bytes `1 .. responseLen-1` are exchanged in order; a missing
acknowledge before the final byte stops further reads (the byte already
exchanged is kept). -/
def padReadLoop (hw : PadHardware) (responseLen : Nat) (resp : List Nat) (i : Nat) :
    List Nat :=
  if i < responseLen then
    let resp' := resp.set i (hw.bytes i)
    if i < responseLen - 1 ∧ ¬hw.dataAcks i then resp'
    else padReadLoop hw responseLen resp' (i + 1)
  else resp
termination_by responseLen - i

/-- Embeds `pollController` (src/src/main.c lines 378-448): defaults are
written first; if the address byte is not acknowledged the function returns
them unchanged (`return; /* No controller */`).  Otherwise the first
response byte fixes the device type and response length, the remaining
bytes are read, buttons are the inverted bytes 2-3, and analog devices
(type 0x5 or 0x7) additionally report the four stick axes from bytes 4-7. -/
def pollController (hw : PadHardware) : ControllerState :=
  if ¬hw.addrAck then neutralControllerState
  else
    let r0 := hw.bytes 0
    if ¬hw.cmdAck then neutralControllerState
    else
      let ctype := r0 / 16
      let halfwords := r0 % 16
      let responseLen := min ((halfwords + 1) * 2) 8
      let response := padReadLoop hw responseLen [r0, 0, 0, 0, 0x80, 0x80, 0x80, 0x80] 1
      let buttons := Nat.xor (response.getD 2 0 + 256 * response.getD 3 0) 0xFFFF
      if ctype = 0x7 ∨ ctype = 0x5 then
        ⟨buttons, response.getD 6 0, response.getD 7 0,
         response.getD 4 0, response.getD 5 0, true⟩
      else
        ⟨buttons, 0x80, 0x80, 0x80, 0x80, false⟩

/-- C1: in the per-face pipeline, exactly one 7-word textured-triangle
packet is appended to the bucket given by the face's average-Z index if and
only if the NCLIP result is positive and the bucket index lies in
`[0, ORDERING_TABLE_SIZE)`; every other face appends nothing; and the word
count consumed from the frame's arena is `7 * passing + 7`, the 7 being the
fixed 3-word background fill plus 4-word drawing-area packet of
src/main.c. -/
theorem perFace_one_packet_iff_and_arena_words (otSize : Nat) (results : List FaceResult) :
    (∀ r : FaceResult,
      (faceAllocation otSize r = some (r.zIndex.toNat, 7) ↔
        0 < r.nclip ∧ 0 ≤ r.zIndex ∧ r.zIndex < (otSize : Int)) ∧
      (faceAllocation otSize r = none ↔
        ¬(0 < r.nclip ∧ 0 ≤ r.zIndex ∧ r.zIndex < (otSize : Int)))) ∧
    (buildFrame otSize results).nextPacket = 7 * passingFaces otSize results + (3 + 4) := by
  refine ⟨fun r => ⟨faceAllocation_eq_some otSize r, faceAllocation_eq_none otSize r⟩, ?_⟩
  show (List.foldl (fun c r => allocatePacket c r.1 r.2) (clearOrderingTable otSize)
    (frameRequests otSize results)).nextPacket = _
  rw [foldl_alloc_nextPacket]
  show 0 + ((frameRequests otSize results).map (fun r => r.2)).sum = _
  unfold frameRequests
  rw [List.map_append, List.sum_append, filterMap_faceAllocation_words]
  simp

/-- C5: the fixed-point sine satisfies `isin 0 = 0`,
`isin quarter_turn = 4096` (one 20.12 unit), and `isin (x + 4096) = isin x`
for every angle, 4096 angle units being one full turn. -/
theorem isin_zero_quarter_periodic :
    isin 0 = 0 ∧ isin 1024 = 4096 ∧ ∀ x : Int, isin (x + 4096) = isin x :=
  ⟨by decide, by decide, isin_period⟩

/-- C4: the rotation composer is non-commutative: with yaw X = 1024 and
pitch Y = 512 (12-bit angle units), composing yaw-then-pitch from the
identity differs from composing pitch-then-yaw, and projecting the rotated
vertex (0, 0, 100) translated to depth 300 with `getScreenX` yields
different screen x coordinates (160 versus 190). -/
theorem rotateCurrentMatrix_noncommutative :
    rotateCurrentMatrix identityGTEMatrix 1024 512 0 ≠
      rotateCurrentMatrix (rotateCurrentMatrix identityGTEMatrix 0 512 0) 1024 0 0 ∧
    getScreenX (mvmva (rotateCurrentMatrix identityGTEMatrix 1024 512 0) 0 0 100).1
        ((mvmva (rotateCurrentMatrix identityGTEMatrix 1024 512 0) 0 0 100).2.2 + 300) ≠
      getScreenX
        (mvmva (rotateCurrentMatrix (rotateCurrentMatrix identityGTEMatrix 0 512 0) 1024 0 0)
          0 0 100).1
        ((mvmva (rotateCurrentMatrix (rotateCurrentMatrix identityGTEMatrix 0 512 0) 1024 0 0)
          0 0 100).2.2 + 300) :=
  ⟨by decide, by decide⟩

/-- C2: after clearing the ordering table and performing any sequence of
allocations (per-face packets followed by the auxiliary packets, each with
an in-range bucket and a positive word count), the walk `sendLinkedList`
starts at the farthest bucket `ORDERING_TABLE_SIZE - 1` terminates at the
sentinel, visits exactly `N + fixed_auxiliary_count` packets, and contains
no cycles. -/
theorem orderingTable_walk_invariant (size : Nat) (faceReqs auxReqs : List (Nat × Nat))
    (hsize : 1 ≤ size)
    (hreq : ∀ r ∈ faceReqs ++ auxReqs, r.1 < size ∧ 0 < r.2) :
    ∃ visited : List Link,
      walkChain (buildChain size (faceReqs ++ auxReqs))
        (size + (faceReqs.length + auxReqs.length)) (Link.otEntry (size - 1))
        = some visited ∧
      (visited.filter isPacketNode).length = faceReqs.length + auxReqs.length ∧
      visited.Nodup :=
  otWalk_visits_all_packets size faceReqs auxReqs hsize hreq

theorem orderingTable_walk_invariant_witness :
    (1 ≤ 4 ∧ ∀ r ∈ ([(1, 7), (1, 7)] ++ [(3, 3), (3, 4)] : List (Nat × Nat)),
      r.1 < 4 ∧ 0 < r.2) ∧
    ∃ visited : List Link,
      walkChain (buildChain 4 ([(1, 7), (1, 7)] ++ [(3, 3), (3, 4)]))
        (4 + (([(1, 7), (1, 7)] : List (Nat × Nat)).length
          + ([(3, 3), (3, 4)] : List (Nat × Nat)).length))
        (Link.otEntry (4 - 1)) = some visited ∧
      (visited.filter isPacketNode).length
        = ([(1, 7), (1, 7)] : List (Nat × Nat)).length
          + ([(3, 3), (3, 4)] : List (Nat × Nat)).length ∧
      visited.Nodup :=
  ⟨⟨by decide, by decide⟩,
   orderingTable_walk_invariant 4 [(1, 7), (1, 7)] [(3, 3), (3, 4)] (by decide) (by decide)⟩

/-- C3: the buffer built in frame `k` is `dmaChains[k % 2]`, so selection
strictly alternates 0,1,0,1,...; the buffer written in frame `k + 2` is the
one submitted in frame `k`, never the one submitted in the immediately
preceding frame; and in the event trace the submit of frame `k`, the
GP0-ready wait and vsync wait of frame `k + 1`, and the write of frame
`k + 2` occur strictly in that order, so one full GPU-ready-plus-vsync-gated
submission completes before the buffer is revisited. -/
theorem doubleBuffer_alternation :
    (∀ k, bufferOf k = k % 2) ∧
    (∀ k, frameEvents k = [FrameEvent.select (bufferOf k), FrameEvent.beginWrite (bufferOf k),
      FrameEvent.waitGP0, FrameEvent.waitVSync, FrameEvent.submit (bufferOf k)]) ∧
    (∀ k, bufferOf (k + 1) ≠ bufferOf k) ∧
    (∀ k, bufferOf (k + 2) = bufferOf k) ∧
    (∀ m k, k + 2 < m →
      (mainTrace m).get? (5 * k + 4) = some (FrameEvent.submit (bufferOf k)) ∧
      (mainTrace m).get? (5 * (k + 1) + 2) = some FrameEvent.waitGP0 ∧
      (mainTrace m).get? (5 * (k + 1) + 3) = some FrameEvent.waitVSync ∧
      (mainTrace m).get? (5 * (k + 2) + 1) = some (FrameEvent.beginWrite (bufferOf k)) ∧
      5 * k + 4 < 5 * (k + 1) + 2 ∧ 5 * (k + 1) + 2 < 5 * (k + 1) + 3 ∧
      5 * (k + 1) + 3 < 5 * (k + 2) + 1) := by
  have hframe : ∀ k, frameEvents k = [FrameEvent.select (bufferOf k),
      FrameEvent.beginWrite (bufferOf k), FrameEvent.waitGP0, FrameEvent.waitVSync,
      FrameEvent.submit (bufferOf k)] := by
    intro k
    rfl
  have hmod2 : ∀ k, bufferOf (k + 2) = bufferOf k := by
    intro k
    rw [bufferOf_mod, bufferOf_mod]
    omega
  refine ⟨bufferOf_mod, hframe, ?_, hmod2, ?_⟩
  · intro k
    rw [bufferOf_mod, bufferOf_mod]
    omega
  · intro m k hm
    refine ⟨?_, ?_, ?_, ?_, by omega, by omega, by omega⟩
    · rw [mainTrace_get k 4 m (by omega) (by omega), hframe k]
      rfl
    · rw [mainTrace_get (k + 1) 2 m (by omega) (by omega), hframe (k + 1)]
      rfl
    · rw [mainTrace_get (k + 1) 3 m (by omega) (by omega), hframe (k + 1)]
      rfl
    · rw [mainTrace_get (k + 2) 1 m (by omega) (by omega), hframe (k + 2), hmod2 k]
      rfl

theorem doubleBuffer_alternation_witness :
    (0 + 2 < 3) ∧
    ((mainTrace 3).get? (5 * 0 + 4) = some (FrameEvent.submit (bufferOf 0)) ∧
      (mainTrace 3).get? (5 * (0 + 1) + 2) = some FrameEvent.waitGP0 ∧
      (mainTrace 3).get? (5 * (0 + 1) + 3) = some FrameEvent.waitVSync ∧
      (mainTrace 3).get? (5 * (0 + 2) + 1) = some (FrameEvent.beginWrite (bufferOf 0)) ∧
      5 * 0 + 4 < 5 * (0 + 1) + 2 ∧ 5 * (0 + 1) + 2 < 5 * (0 + 1) + 3 ∧
      5 * (0 + 1) + 3 < 5 * (0 + 2) + 1) :=
  ⟨by decide, doubleBuffer_alternation.2.2.2.2 3 0 (by decide)⟩

/-- C6: `loadModel` fails (returns nothing) whenever the buffer is smaller
than the 8-byte header, and a buffer of exactly 8 zero bytes loads
successfully with zero vertices, zero UVs and zero faces, the counts coming
from the header's 16-bit words. -/
theorem loadModel_header_size_check :
    (∀ (data : List Nat) (size : Nat), size < 8 → loadModel data size = none) ∧
    loadModel [0, 0, 0, 0, 0, 0, 0, 0] 8 = some ⟨0, 0, 0, 0, 8, 8, 8⟩ ∧
    (∀ data : List Nat, read16 data 0 = data.getD 0 0 + 256 * data.getD 1 0) := by
  refine ⟨?_, by decide, fun data => rfl⟩
  intro data size h
  unfold loadModel
  rw [if_pos h]

theorem loadModel_header_size_check_witness :
    (3 < 8 ∧ loadModel [1, 2, 3] 3 = none) ∧
    loadModel [0, 0, 0, 0, 0, 0, 0, 0] 8 = some ⟨0, 0, 0, 0, 8, 8, 8⟩ :=
  ⟨⟨by decide, loadModel_header_size_check.1 [1, 2, 3] 3 (by decide)⟩,
   loadModel_header_size_check.2.1⟩

/-- C9: for any data buffer and any `size ≥ 8`, `loadModel` succeeds and
computes the table offsets solely from the header counts — vertices at
offset 8, the UV and face tables at the next 4-byte-aligned offsets — with
no check that the declared tables fit inside `size`, so a truncated buffer
with nonzero counts still loads. -/
theorem loadModel_offsets_no_bounds_check (data : List Nat) (size : Nat) (h : 8 ≤ size) :
    loadModel data size = some
      ⟨read16 data 0, read16 data 1, read16 data 2, read16 data 3,
       8, align4 (8 + read16 data 0 * 6),
       align4 (align4 (8 + read16 data 0 * 6) + read16 data 1 * 2)⟩ := by
  unfold loadModel
  rw [if_neg (by omega)]

theorem loadModel_offsets_no_bounds_check_witness :
    8 ≤ 8 ∧
    loadModel [1, 0, 0, 0, 1, 0, 0, 0] 8 = some ⟨1, 0, 1, 0, 8, 16, 16⟩ ∧
    16 + 18 * 1 > 8 :=
  ⟨by decide,
   by rw [loadModel_offsets_no_bounds_check [1, 0, 0, 0, 1, 0, 0, 0] 8 (by decide)]; rfl,
   by decide⟩

/-- C8: when no controller responds on the port (the address byte is never
acknowledged), `pollController` returns the neutral default state: button
bitmask 0, all four analog axes centered at 0x80, and the analog flag
false. -/
theorem pollController_no_controller_neutral (hw : PadHardware) (h : hw.addrAck = false) :
    pollController hw = neutralControllerState ∧
    neutralControllerState = ⟨0, 0x80, 0x80, 0x80, 0x80, false⟩ := by
  refine ⟨?_, rfl⟩
  simp [pollController, h]

theorem pollController_no_controller_neutral_witness :
    (PadHardware.mk false false (fun _ => false) (fun _ => 0)).addrAck = false ∧
    (pollController (PadHardware.mk false false (fun _ => false) (fun _ => 0))
        = neutralControllerState ∧
      neutralControllerState = ⟨0, 0x80, 0x80, 0x80, 0x80, false⟩) :=
  ⟨rfl, pollController_no_controller_neutral (PadHardware.mk false false (fun _ => false)
    (fun _ => 0)) rfl⟩

/-- C10: for every depth index passed to `drawBgTriangle`, including
negative values and values beyond the table, the emitted 4-word packet goes
into a bucket in the inclusive range
`[ORDERING_TABLE_SIZE / 2, ORDERING_TABLE_SIZE - 3]`: never the near half
used by the main model, never the two farthest buckets used by the
background fill and stars. -/
theorem drawBgTriangle_bucket_in_band (otSize : Nat) (c : DMAChain) (zIdx : Int)
    (h : 6 ≤ otSize) :
    ∃ b : Nat, drawBgTriangle otSize c zIdx = allocatePacket c b 4 ∧
      otSize / 2 ≤ b ∧ b + 3 ≤ otSize := by
  have hb : ((otSize / 2 : Nat) : Int) ≤ drawBgTriangleBucket otSize zIdx ∧
      drawBgTriangleBucket otSize zIdx ≤ (otSize : Int) - 3 := by
    simp only [drawBgTriangleBucket]
    split_ifs <;> omega
  exact ⟨(drawBgTriangleBucket otSize zIdx).toNat, rfl, by omega, by omega⟩

theorem drawBgTriangle_bucket_in_band_witness :
    6 ≤ 1024 ∧
    ∃ b : Nat, drawBgTriangle 1024 (clearOrderingTable 1024) (-5)
        = allocatePacket (clearOrderingTable 1024) b 4 ∧
      1024 / 2 ≤ b ∧ b + 3 ≤ 1024 :=
  ⟨by decide, drawBgTriangle_bucket_in_band 1024 (clearOrderingTable 1024) (-5) (by decide)⟩

/-- C7 counterexample: the claim that every hardware-readiness poll is a
bounded spin with a timeout counter is false — `waitCDReady`
(src/src/cdda.c lines 64-67) has no timeout counter at all, so on hardware
whose busy flag never clears, no number of loop iterations is enough for it
to exit. -/
theorem waitCDReady_not_bounded :
    ¬ ∃ (fuel exitRead : Nat), waitCDReadyLoop (fun _ => true) 0 fuel = some exitRead := by
  rintro ⟨fuel, exitRead, hf⟩
  rw [waitCDReadyLoop_busy_forever fuel 0] at hf
  exact Option.noConfusion hf

/-- C7 (amended): the SPU readiness poll `SPUWaitIdle` is a bounded spin
with a timeout counter, performing at most 10000 status reads on any
hardware behaviour and then proceeding anyway; but `waitCDReady` and the
TX/RX waits of `exchangeByte` are unbounded spins with no counter that
never exit while the polled flag stays unfavourable. -/
theorem hardwarePolls_bounded_and_unbounded :
    (∀ busy : Nat → Bool, SPUWaitIdleReads busy 0 9999 ≤ 10000) ∧
    (∀ fuel i : Nat, waitCDReadyLoop (fun _ => true) i fuel = none) ∧
    (∀ fuel i : Nat, exchangeByteTxWait (fun _ => false) i fuel = none) := by
  refine ⟨?_, waitCDReadyLoop_busy_forever, exchangeByteTxWait_blocked_forever⟩
  intro busy
  have := SPUWaitIdleReads_le busy 9999 0
  omega
